import Mathlib

/-
Verification of the monerostack node-cache / node-manager / transport layer
(src/monerostack/mcprpc/utils.py) against its natural-language specification.
Python floats are modelled as rationals, timestamps as rationals, and the
random sources (random.choices, random.choice) as explicit oracle parameters.
-/

/-- MoneroNode dataclass (utils.py lines 86-96). -/
structure MoneroNode where
  name : String
  url : String
  description : String
  is_local : Bool
  priority : Int
  response_time : ℚ
  last_tested : ℚ
  success_rate : ℚ
deriving DecidableEq

/-- The per-record decay applied by MoneroNodeCache.mark_node_failure
(line 153): success_rate becomes max(0.1, success_rate * 0.8). -/
def decayRate (x : ℚ) : ℚ := max (1/10) (x * (4/5))

/-- The record-list part of MoneroNodeCache.mark_node_failure (lines 150-155):
scan for the first record whose url matches, decay its success_rate, break. -/
def markNodeFailureList : List MoneroNode → String → List MoneroNode
  | [], _ => []
  | n :: ns, url =>
    if n.url = url then { n with success_rate := decayRate n.success_rate } :: ns
    else n :: markNodeFailureList ns url

/-- Count of healthy records, success_rate > 0.5 (lines 158, 170). -/
def healthyCount (ns : List MoneroNode) : ℕ :=
  (ns.filter (fun n => decide ((1:ℚ)/2 < n.success_rate))).length

/-- Mutable state of MoneroNodeCache (lines 112-116): the record list, the
last-refresh timestamp, and the single-flight in-progress flag. -/
structure CacheState where
  nodes : List MoneroNode
  last_refresh : ℚ
  refresh_in_progress : Bool
deriving DecidableEq

/-- Outcome of a cache operation: the new state and whether a background
refresh was scheduled (a thread spawned by _force_refresh). -/
structure CacheReadOut where
  state : CacheState
  scheduled : Bool
deriving DecidableEq

/-- MoneroNodeCache._force_refresh (lines 175-183): return if a refresh is
already in progress, otherwise set the flag and spawn the background thread. -/
def forceRefresh (s : CacheState) : CacheReadOut :=
  if s.refresh_in_progress then ⟨s, false⟩
  else ⟨{ s with refresh_in_progress := true }, true⟩

/-- MoneroNodeCache._refresh_if_needed (lines 163-173). -/
def refreshIfNeeded (s : CacheState) (now : ℚ) : CacheReadOut :=
  if now - s.last_refresh > 3600 ∨ s.nodes = [] ∨ healthyCount s.nodes < 2 then
    if s.refresh_in_progress = false ∧ now - s.last_refresh > 300 then forceRefresh s
    else ⟨s, false⟩
  else ⟨s, false⟩

/-- MoneroNodeCache.mark_node_failure (lines 147-161): decay the first
matching record, then force a refresh when fewer than 2 healthy records remain. -/
def cacheMarkNodeFailure (s : CacheState) (url : String) : CacheReadOut :=
  let nodes1 := markNodeFailureList s.nodes url
  if healthyCount nodes1 < 2 then forceRefresh { s with nodes := nodes1 }
  else ⟨{ s with nodes := nodes1 }, false⟩

/-- Weight of one node in get_random_node (line 130):
success_rate / max(response_time, 0.1). -/
def nodeWeight (n : MoneroNode) : ℚ := n.success_rate / max n.response_time (1/10)

/-- The weights list built by get_random_node (lines 127-131). -/
def weightsOf (ns : List MoneroNode) : List ℚ := ns.map nodeWeight

/-- Cumulative weighted selection, modelling random.choices(nodes, weights)
at line 135; r is the random draw in [0, total weight). -/
def selectWeighted : List MoneroNode → List ℚ → ℚ → Option MoneroNode
  | [], _, _ => none
  | _ :: _, [], _ => none
  | n :: ns, w :: ws, r => if r < w then some n else selectWeighted ns ws (r - w)

/-- Result of get_random_node: new state, whether a refresh was scheduled,
and the picked record. -/
structure RandOut where
  state : CacheState
  scheduled : Bool
  picked : Option MoneroNode
deriving DecidableEq

/-- MoneroNodeCache.get_random_node (lines 118-139): the refresh check runs
only when the node list is empty; the refresh itself is asynchronous so the
list is still empty afterwards and None is returned; otherwise a record is
chosen by weighted random sampling. -/
def getRandomNode (s : CacheState) (now r : ℚ) : RandOut :=
  if s.nodes = [] then
    let o := refreshIfNeeded s now
    ⟨o.state, o.scheduled, none⟩
  else ⟨s, false, selectWeighted s.nodes (weightsOf s.nodes) r⟩

/-- Result of get_all_nodes. -/
structure AllOut where
  state : CacheState
  scheduled : Bool
  nodes : List MoneroNode
deriving DecidableEq

/-- MoneroNodeCache.get_all_nodes (lines 141-145): always runs the refresh
check, then returns a copy of the current list. -/
def getAllNodes (s : CacheState) (now : ℚ) : AllOut :=
  let o := refreshIfNeeded s now
  ⟨o.state, o.scheduled, o.state.nodes⟩

/- Helper lemmas about the decay and the record-list update. -/

lemma decayRate_def (x : ℚ) : decayRate x = max (1/10) (x * (4/5)) := rfl

lemma decayRate_floor (x : ℚ) : 1/10 ≤ decayRate x := le_max_left _ _

lemma decayRate_lt (x : ℚ) (hx : 1/10 < x) : decayRate x < x := by
  have hmul : x * (4/5) < x := by nlinarith
  exact max_lt hx hmul

lemma decayRate_at_floor : decayRate (1/10) = 1/10 := by
  unfold decayRate
  rw [max_eq_left]
  norm_num

lemma decayRate_at_floor_inv : decayRate ((10:ℚ)⁻¹) = (10:ℚ)⁻¹ := by
  rw [show ((10:ℚ)⁻¹) = 1/10 by norm_num]
  exact decayRate_at_floor

lemma markNodeFailureList_no_match (ns : List MoneroNode) (url : String)
    (h : ∀ m ∈ ns, m.url ≠ url) : markNodeFailureList ns url = ns := by
  induction ns with
  | nil => rfl
  | cons n ns ih =>
    have hn : n.url ≠ url := h n (List.mem_cons_self n ns)
    simp only [markNodeFailureList, if_neg hn]
    rw [ih (fun m hm => h m (List.mem_cons_of_mem n hm))]

lemma markNodeFailureList_append (pre post : List MoneroNode) (n : MoneroNode)
    (url : String) (hpre : ∀ m ∈ pre, m.url ≠ url) (hn : n.url = url) :
    markNodeFailureList (pre ++ n :: post) url
      = pre ++ { n with success_rate := decayRate n.success_rate } :: post := by
  induction pre with
  | nil => simp [markNodeFailureList, hn]
  | cons p ps ih =>
    have hp : p.url ≠ url := hpre p (List.mem_cons_self p ps)
    simp only [List.cons_append, markNodeFailureList, if_neg hp]
    exact congrArg (p :: ·) (ih (fun m hm => hpre m (List.mem_cons_of_mem p hm)))

/-- C3 (amended): mark_node_failure sets the first matching record to
max(0.1, 0.8 * old); this never drops below the 0.1 floor that it strictly
decreases the value whenever the start is strictly above 0.1, and leaves the
value unchanged exactly at the 0.1 floor (so the decrease is not strict over
all of [0.1, 1.0]). -/
theorem mark_failure_decay_c3 (pre post : List MoneroNode) (n : MoneroNode)
    (url : String) (hpre : ∀ m ∈ pre, m.url ≠ url) (hn : n.url = url)
    (hlo : 1/10 ≤ n.success_rate) (hhi : n.success_rate ≤ 1) :
    markNodeFailureList (pre ++ n :: post) url
        = pre ++ { n with success_rate := decayRate n.success_rate } :: post
      ∧ decayRate n.success_rate = max (1/10) (n.success_rate * (4/5))
      ∧ 1/10 ≤ decayRate n.success_rate
      ∧ (1/10 < n.success_rate → decayRate n.success_rate < n.success_rate)
      ∧ (n.success_rate = 1/10 → decayRate n.success_rate = n.success_rate) := by
  refine ⟨markNodeFailureList_append pre post n url hpre hn, rfl,
    decayRate_floor _, decayRate_lt _, ?_⟩
  intro h
  rw [h, decayRate_at_floor]

theorem mark_failure_decay_c3_witness :
    markNodeFailureList [⟨"n", "u", "", false, 1, 0, 0, 1/2⟩] "u"
        = [⟨"n", "u", "", false, 1, 0, 0, decayRate (1/2)⟩]
      ∧ decayRate (1/2) < 1/2 :=
  ⟨(mark_failure_decay_c3 [] [] ⟨"n", "u", "", false, 1, 0, 0, 1/2⟩ "u"
      (by intro m hm; cases hm) rfl (by norm_num) (by norm_num)).1,
   (mark_failure_decay_c3 [] [] ⟨"n", "u", "", false, 1, 0, 0, 1/2⟩ "u"
      (by intro m hm; cases hm) rfl (by norm_num) (by norm_num)).2.2.2.1 (by norm_num)⟩

/-- A record sitting exactly at the 0.1 floor. -/
def nFloor : MoneroNode := ⟨"f", "uf", "", false, 1, 0, 0, 1/10⟩

/-- C3 counterexample: at starting success_rate 0.1, which lies in [0.1, 1.0],
mark_node_failure leaves the record entirely unchanged, so the success_rate
does not strictly decrease. -/
theorem mark_failure_decay_c3_cx :
    (1:ℚ)/10 ≤ nFloor.success_rate ∧ nFloor.success_rate ≤ 1
      ∧ markNodeFailureList [nFloor] "uf" = [nFloor]
      ∧ ∀ m ∈ markNodeFailureList [nFloor] "uf",
          ¬ m.success_rate < nFloor.success_rate := by
  have heq : markNodeFailureList [nFloor] "uf" = [nFloor] := by
    simp [markNodeFailureList, nFloor, decayRate_at_floor, decayRate_at_floor_inv]
  refine ⟨le_refl _, by norm_num [nFloor], heq, ?_⟩
  intro m hm
  rw [heq, List.mem_singleton] at hm
  subst hm
  exact lt_irrefl _

/-- C10: mark_node_failure updates at most the success_rate of the first
record whose url matches; every other field of that record, every other
record, and (when no record matches) the whole list are unchanged; and the
full cache operation touches the record list only through this update, even
though it may additionally schedule a refresh. -/
theorem mark_failure_frame_c10 (url : String) :
    (∀ (pre post : List MoneroNode) (n : MoneroNode),
        (∀ m ∈ pre, m.url ≠ url) → n.url = url →
        markNodeFailureList (pre ++ n :: post) url
          = pre ++ { n with success_rate := decayRate n.success_rate } :: post)
    ∧ (∀ n : MoneroNode,
        ({ n with success_rate := decayRate n.success_rate } : MoneroNode).name = n.name
        ∧ ({ n with success_rate := decayRate n.success_rate } : MoneroNode).url = n.url
        ∧ ({ n with success_rate := decayRate n.success_rate } : MoneroNode).description
            = n.description
        ∧ ({ n with success_rate := decayRate n.success_rate } : MoneroNode).is_local
            = n.is_local
        ∧ ({ n with success_rate := decayRate n.success_rate } : MoneroNode).priority
            = n.priority
        ∧ ({ n with success_rate := decayRate n.success_rate } : MoneroNode).response_time
            = n.response_time
        ∧ ({ n with success_rate := decayRate n.success_rate } : MoneroNode).last_tested
            = n.last_tested)
    ∧ (∀ ns : List MoneroNode, (∀ m ∈ ns, m.url ≠ url) →
        markNodeFailureList ns url = ns)
    ∧ (∀ s : CacheState,
        (cacheMarkNodeFailure s url).state.nodes = markNodeFailureList s.nodes url) := by
  refine ⟨fun pre post n hpre hn => markNodeFailureList_append pre post n url hpre hn,
    fun n => ⟨rfl, rfl, rfl, rfl, rfl, rfl, rfl⟩,
    fun ns h => markNodeFailureList_no_match ns url h, fun s => ?_⟩
  unfold cacheMarkNodeFailure forceRefresh
  by_cases h : healthyCount (markNodeFailureList s.nodes url) < 2 <;>
    by_cases h2 : s.refresh_in_progress <;> simp [h, h2]

theorem mark_failure_frame_c10_witness :
    markNodeFailureList [nFloor] "zzz" = [nFloor] :=
  (mark_failure_frame_c10 "zzz").2.2.1 [nFloor]
    (by intro m hm; rw [List.mem_singleton] at hm; subst hm; decide)

/- Helper lemmas about the refresh machinery and weighted selection. -/

lemma forceRefresh_nodes (s : CacheState) : (forceRefresh s).state.nodes = s.nodes := by
  unfold forceRefresh
  by_cases h : s.refresh_in_progress <;> simp [h]

lemma refreshIfNeeded_nodes (s : CacheState) (now : ℚ) :
    (refreshIfNeeded s now).state.nodes = s.nodes := by
  unfold refreshIfNeeded
  split
  · split
    · exact forceRefresh_nodes s
    · rfl
  · rfl

lemma forceRefresh_scheduled (s : CacheState) :
    (forceRefresh s).scheduled = true ↔ s.refresh_in_progress = false := by
  unfold forceRefresh
  by_cases h : s.refresh_in_progress <;> simp [h]

lemma refreshIfNeeded_scheduled (s : CacheState) (now : ℚ) :
    (refreshIfNeeded s now).scheduled = true ↔
      ((now - s.last_refresh > 3600 ∨ s.nodes = [] ∨ healthyCount s.nodes < 2)
        ∧ s.refresh_in_progress = false ∧ now - s.last_refresh > 300) := by
  unfold refreshIfNeeded
  split
  · rename_i hcond
    split
    · rename_i hgate
      rw [forceRefresh_scheduled]
      exact ⟨fun h => ⟨hcond, h, hgate.2⟩, fun h => h.2.1⟩
    · rename_i hgate
      simp only [Bool.false_eq_true, false_iff]
      intro h
      exact hgate ⟨h.2.1, h.2.2⟩
  · rename_i hcond
    simp only [Bool.false_eq_true, false_iff]
    intro h
    exact hcond h.1

/-- C4 (amended): get_all_nodes always runs the refresh check, while
get_random_node runs it only when the node set is empty; the check schedules
a background refresh exactly when (the snapshot is more than 1 hour old, or
the set is empty, or fewer than 2 records have success_rate above 0.5) and
strictly more than 5 minutes have passed since the last refresh and no
refresh is already in flight. -/
theorem refresh_check_c4 (s : CacheState) (now r : ℚ) :
    ((refreshIfNeeded s now).scheduled = true ↔
       ((now - s.last_refresh > 3600 ∨ s.nodes = [] ∨ healthyCount s.nodes < 2)
         ∧ s.refresh_in_progress = false ∧ now - s.last_refresh > 300))
    ∧ (getAllNodes s now).scheduled = (refreshIfNeeded s now).scheduled
    ∧ ((getRandomNode s now r).scheduled = true ↔
       (s.nodes = [] ∧ s.refresh_in_progress = false ∧ now - s.last_refresh > 300)) := by
  refine ⟨refreshIfNeeded_scheduled s now, rfl, ?_⟩
  unfold getRandomNode
  by_cases hemp : s.nodes = []
  · simp only [hemp, if_pos]
    simp only [true_and]
    rw [refreshIfNeeded_scheduled]
    constructor
    · intro h
      exact h.2
    · intro h
      exact ⟨Or.inr (Or.inl hemp), h⟩
  · simp only [if_neg hemp]
    simp only [Bool.false_eq_true, false_iff]
    intro h
    exact hemp h.1

/-- A healthy fast node used in concrete scenarios. -/
def nGood : MoneroNode := ⟨"g", "ug", "", false, 1, 0, 0, 1⟩

/-- A stale cache state holding one node, last refreshed at epoch 0. -/
def sStale : CacheState := ⟨[nGood], 0, false⟩

/-- An empty cache state, last refreshed at epoch 0. -/
def sEmptyCache : CacheState := ⟨[], 0, false⟩

/-- C4 counterexample: with a non-empty node set that is stale far beyond the
TTL, no refresh in flight and far more than 5 minutes elapsed, the claim says
get_random_node schedules a refresh; the code does not run the check at all
(it only runs it when the set is empty), while the check itself would have
scheduled one. Additionally, at exactly 5 minutes since the last refresh on
an empty set the claim (at least 5 minutes) says a refresh is scheduled, but
the code requires strictly more than 5 minutes. -/
theorem refresh_check_c4_cx :
    (getRandomNode sStale 1000000 0).scheduled = false
    ∧ (refreshIfNeeded sStale 1000000).scheduled = true
    ∧ (1000000 : ℚ) - sStale.last_refresh > 3600
    ∧ sStale.refresh_in_progress = false
    ∧ (refreshIfNeeded sEmptyCache 300).scheduled = false
    ∧ sEmptyCache.nodes = []
    ∧ (300 : ℚ) - sEmptyCache.last_refresh ≥ 300 := by
  refine ⟨?_, ?_, by norm_num [sStale], rfl, ?_, rfl, by norm_num [sEmptyCache]⟩
  · have hne : sStale.nodes ≠ [] := by simp [sStale]
    unfold getRandomNode
    rw [if_neg hne]
  · rw [refreshIfNeeded_scheduled]
    refine ⟨Or.inl (by norm_num [sStale]), rfl, by norm_num [sStale]⟩
  · rw [show (refreshIfNeeded sEmptyCache 300).scheduled = false ↔
        ¬ (refreshIfNeeded sEmptyCache 300).scheduled = true by
      cases h : (refreshIfNeeded sEmptyCache 300).scheduled <;> simp]
    rw [refreshIfNeeded_scheduled]
    intro h
    have := h.2.2
    norm_num [sEmptyCache] at this

lemma weightsOf_cons (n : MoneroNode) (ns : List MoneroNode) :
    weightsOf (n :: ns) = nodeWeight n :: weightsOf ns := rfl

lemma nodeWeight_pos (n : MoneroNode) (h : 0 < n.success_rate) : 0 < nodeWeight n := by
  unfold nodeWeight
  apply div_pos h
  exact lt_of_lt_of_le (by norm_num) (le_max_right _ _)

lemma weightsOf_sum_nonneg (ns : List MoneroNode)
    (h : ∀ m ∈ ns, 0 < m.success_rate) : 0 ≤ (weightsOf ns).sum := by
  apply List.sum_nonneg
  intro w hw
  rcases List.mem_map.mp hw with ⟨m, hm, rfl⟩
  exact le_of_lt (nodeWeight_pos m (h m hm))

lemma selectWeighted_hits (ns : List MoneroNode)
    (h : ∀ m ∈ ns, 0 < m.success_rate) :
    ∀ n ∈ ns, ∃ rr : ℚ, 0 ≤ rr ∧ rr < (weightsOf ns).sum
      ∧ selectWeighted ns (weightsOf ns) rr = some n := by
  induction ns with
  | nil => intro n hn; cases hn
  | cons hd tl ih =>
    intro n hn
    have hhd : 0 < nodeWeight hd :=
      nodeWeight_pos hd (h hd (List.mem_cons_self hd tl))
    have htlsum : 0 ≤ (weightsOf tl).sum :=
      weightsOf_sum_nonneg tl (fun m hm => h m (List.mem_cons_of_mem hd hm))
    rcases List.mem_cons.mp hn with rfl | hn
    · refine ⟨0, le_refl 0, ?_, ?_⟩
      · rw [weightsOf_cons, List.sum_cons]
        linarith
      · rw [weightsOf_cons]
        unfold selectWeighted
        rw [if_pos hhd]
    · rcases ih (fun m hm => h m (List.mem_cons_of_mem hd hm)) n hn with
        ⟨rr, hr0, hrlt, hsel⟩
      refine ⟨nodeWeight hd + rr, by linarith, ?_, ?_⟩
      · rw [weightsOf_cons, List.sum_cons]
        linarith
      · rw [weightsOf_cons]
        unfold selectWeighted
        rw [if_neg (by linarith)]
        rw [show nodeWeight hd + rr - nodeWeight hd = rr by ring]
        exact hsel

lemma selectWeighted_total (ns : List MoneroNode)
    (h : ∀ m ∈ ns, 0 < m.success_rate) :
    ∀ r : ℚ, 0 ≤ r → r < (weightsOf ns).sum →
      ∃ n ∈ ns, selectWeighted ns (weightsOf ns) r = some n := by
  induction ns with
  | nil =>
    intro r h0 hlt
    simp only [weightsOf, List.map_nil, List.sum_nil] at hlt
    exact absurd hlt (not_lt.mpr h0)
  | cons hd tl ih =>
    intro r h0 hlt
    rw [weightsOf_cons, List.sum_cons] at hlt
    by_cases hcase : r < nodeWeight hd
    · refine ⟨hd, List.mem_cons_self hd tl, ?_⟩
      rw [weightsOf_cons]
      unfold selectWeighted
      rw [if_pos hcase]
    · have h0tl : 0 ≤ r - nodeWeight hd := by
        push_neg at hcase
        linarith
      have hlttl : r - nodeWeight hd < (weightsOf tl).sum := by linarith
      rcases ih (fun m hm => h m (List.mem_cons_of_mem hd hm))
          (r - nodeWeight hd) h0tl hlttl with ⟨n, hn, hsel⟩
      refine ⟨n, List.mem_cons_of_mem hd hn, ?_⟩
      rw [weightsOf_cons]
      unfold selectWeighted
      rw [if_neg hcase]
      exact hsel

/-- C5: on a node set whose records all have positive success_rate (the
documented invariant, floor 0.1), get_random_node samples by the weight
success_rate / max(response_time, 0.1); every weight is strictly positive
(the 0.1 test guards a response_time of 0), every record is selected for
some draw, any in-range draw selects some record of the set, and None is
returned only when the set is empty. -/
theorem weighted_selection_c5 (s : CacheState) (now r : ℚ)
    (hpos : ∀ n ∈ s.nodes, 0 < n.success_rate) :
    (∀ n ∈ s.nodes,
        nodeWeight n = n.success_rate / max n.response_time (1/10) ∧ 0 < nodeWeight n)
    ∧ (∀ n ∈ s.nodes, ∃ rr : ℚ, 0 ≤ rr ∧ rr < (weightsOf s.nodes).sum
        ∧ (getRandomNode s now rr).picked = some n)
    ∧ (0 ≤ r → r < (weightsOf s.nodes).sum →
        ∃ n ∈ s.nodes, (getRandomNode s now r).picked = some n)
    ∧ (s.nodes = [] → (getRandomNode s now r).picked = none)
    ∧ (0 ≤ r → r < (weightsOf s.nodes).sum →
        (getRandomNode s now r).picked = none → s.nodes = []) := by
  have hpick : ∀ rr : ℚ, s.nodes ≠ [] →
      (getRandomNode s now rr).picked = selectWeighted s.nodes (weightsOf s.nodes) rr := by
    intro rr hne
    unfold getRandomNode
    rw [if_neg hne]
  refine ⟨fun n _ => ⟨rfl, nodeWeight_pos n (hpos n (by assumption))⟩, ?_, ?_, ?_, ?_⟩
  · intro n hn
    have hne : s.nodes ≠ [] := by
      intro hcontra
      rw [hcontra] at hn
      cases hn
    rcases selectWeighted_hits s.nodes hpos n hn with ⟨rr, h0, hlt, hsel⟩
    exact ⟨rr, h0, hlt, by rw [hpick rr hne]; exact hsel⟩
  · intro h0 hlt
    by_cases hne : s.nodes = []
    · exfalso
      rw [hne] at hlt
      simp only [weightsOf, List.map_nil, List.sum_nil] at hlt
      exact absurd hlt (not_lt.mpr h0)
    · rcases selectWeighted_total s.nodes hpos r h0 hlt with ⟨n, hn, hsel⟩
      exact ⟨n, hn, by rw [hpick r hne]; exact hsel⟩
  · intro hemp
    unfold getRandomNode
    rw [if_pos hemp]
  · intro h0 hlt hnone
    by_contra hne
    rcases selectWeighted_total s.nodes hpos r h0 hlt with ⟨n, hn, hsel⟩
    rw [hpick r hne, hsel] at hnone
    cases hnone

theorem weighted_selection_c5_witness :
    ∃ n ∈ sStale.nodes, (getRandomNode sStale 0 0).picked = some n :=
  (weighted_selection_c5 sStale 0 0
      (by intro n hn
          rw [show sStale.nodes = [nGood] from rfl, List.mem_singleton] at hn
          subst hn
          norm_num [nGood])).2.2.1
    (le_refl 0)
    (by norm_num [sStale, weightsOf, nGood, nodeWeight])

/- MoneroNodeManager (utils.py lines 509-639). The manager holds either a
static node list or delegates to the cache; current node and failure counter
are per-manager state. random.choice is modelled by an index oracle. -/

/-- Per-manager state (lines 520-530). -/
structure ManagerState where
  nodes : List MoneroNode
  useCache : Bool
  current : Option MoneroNode
  failureCount : ℕ
deriving DecidableEq

/-- random.choice over a list, the chooser index given as an oracle; every
element is reachable by some index and none is returned only on the empty
list. -/
def pickUniform (l : List MoneroNode) (i : ℕ) : Option MoneroNode :=
  l.get? (i % l.length)

/-- Result of get_next_node: new manager state, new cache state, returned node. -/
structure NextOut where
  mgr : ManagerState
  cache : CacheState
  ret : Option MoneroNode
deriving DecidableEq

/-- The static-list tail of MoneroNodeManager.get_next_node (lines 565-576):
if at most one node is listed return None, else pick a random node different
from the current one, or None when no such node exists. -/
def staticNext (st : ManagerState) (cache : CacheState) (idx : ℕ) : NextOut :=
  if st.nodes.length ≤ 1 then ⟨st, cache, none⟩
  else
    match pickUniform (st.nodes.filter (fun x => decide (some x ≠ st.current))) idx with
    | some n => ⟨{ st with current := some n }, cache, some n⟩
    | none => ⟨st, cache, none⟩

/-- MoneroNodeManager.get_next_node (lines 551-576): in cache mode first mark
the current node failed in the cache, then draw a random node and accept it
only if it differs from the current one; otherwise (and in static mode) fall
through to the static-list selection. -/
def getNextNode (st : ManagerState) (cache : CacheState) (now r : ℚ) (idx : ℕ) :
    NextOut :=
  if st.useCache = true then
    let cache1 := match st.current with
      | some c => (cacheMarkNodeFailure cache c.url).state
      | none => cache
    let res := getRandomNode cache1 now r
    match res.picked with
    | some n =>
      if some n ≠ st.current then ⟨{ st with current := some n }, res.state, some n⟩
      else staticNext st res.state idx
    | none => staticNext st res.state idx
  else staticNext st cache idx

lemma cacheMarkNodeFailure_nodes (s : CacheState) (url : String) :
    (cacheMarkNodeFailure s url).state.nodes = markNodeFailureList s.nodes url := by
  unfold cacheMarkNodeFailure forceRefresh
  by_cases h : healthyCount (markNodeFailureList s.nodes url) < 2 <;>
    by_cases h2 : s.refresh_in_progress <;> simp [h, h2]

lemma getRandomNode_state_nodes (s : CacheState) (now r : ℚ) :
    (getRandomNode s now r).state.nodes = s.nodes := by
  unfold getRandomNode
  split
  · show (refreshIfNeeded s now).state.nodes = s.nodes
    exact refreshIfNeeded_nodes s now
  · rfl

lemma staticNext_cache (st : ManagerState) (cache : CacheState) (idx : ℕ) :
    (staticNext st cache idx).cache = cache := by
  unfold staticNext
  split
  · rfl
  · split <;> rfl

lemma pickUniform_mem (l : List MoneroNode) (i : ℕ) (n : MoneroNode)
    (h : pickUniform l i = some n) : n ∈ l := by
  unfold pickUniform at h
  exact List.get?_mem h

lemma staticNext_ret_mem (st : ManagerState) (cache : CacheState) (idx : ℕ)
    (n : MoneroNode) (h : (staticNext st cache idx).ret = some n) :
    n ∈ st.nodes ∧ some n ≠ st.current := by
  unfold staticNext at h
  split at h
  · cases h
  · split at h
    · rename_i m hm
      cases h
      have hmem := pickUniform_mem _ _ _ hm
      rcases List.mem_filter.mp hmem with ⟨h1, h2⟩
      exact ⟨h1, of_decide_eq_true h2⟩
    · cases h

lemma staticNext_none (st : ManagerState) (cache : CacheState) (idx : ℕ)
    (h : st.nodes.filter (fun x => decide (some x ≠ st.current)) = []) :
    (staticNext st cache idx).ret = none := by
  unfold staticNext
  split
  · rfl
  · split
    · rename_i m hm
      rw [h] at hm
      simp [pickUniform] at hm
    · rfl

lemma staticNext_hits (st : ManagerState) (cache : CacheState) (n : MoneroNode)
    (hn : n ∈ st.nodes) (hne : some n ≠ st.current) (hlen : 1 < st.nodes.length) :
    ∃ j, (staticNext st cache j).ret = some n := by
  have hmemf : n ∈ st.nodes.filter (fun x => decide (some x ≠ st.current)) :=
    List.mem_filter.mpr ⟨hn, decide_eq_true hne⟩
  rcases List.get_of_mem hmemf with ⟨i, hi⟩
  refine ⟨i.1, ?_⟩
  have hpick : pickUniform (st.nodes.filter (fun x => decide (some x ≠ st.current))) i.1
      = some n := by
    unfold pickUniform
    rw [Nat.mod_eq_of_lt i.2, List.get?_eq_get i.2, hi]
  unfold staticNext
  rw [if_neg (by omega : ¬ st.nodes.length ≤ 1)]
  simp only [hpick]

lemma staticNext_ret_current (st : ManagerState) (cache : CacheState) (idx : ℕ)
    (n : MoneroNode) (h : (staticNext st cache idx).ret = some n) :
    (staticNext st cache idx).mgr.current = some n := by
  unfold staticNext at h ⊢
  by_cases hlen : st.nodes.length ≤ 1
  · rw [if_pos hlen] at h
    exact Option.noConfusion h
  · rw [if_neg hlen] at h ⊢
    rcases hp : pickUniform (st.nodes.filter (fun x => decide (some x ≠ st.current))) idx
      with _ | m
    · simp only [hp] at h
      exact Option.noConfusion h
    · simp only [hp] at h ⊢
      have h2 : some m = some n := h
      obtain rfl := Option.some.inj h2
      rfl

lemma getNextNode_static (st : ManagerState) (cache : CacheState) (now r : ℚ)
    (idx : ℕ) (h : st.useCache = false) :
    getNextNode st cache now r idx = staticNext st cache idx := by
  unfold getNextNode
  rw [if_neg (by simp [h])]

/-- C6: in cache mode get_next_node first marks the current node failed in
the cache (the record list of the resulting cache state is exactly the
decayed list), then draws a random node and accepts it as the new current
node exactly when it differs from the current one: a differing draw is
installed and returned, and conversely any node returned in cache mode is
installed as current and differs from the previous current node, so a draw
equal to the current node is never returned; in static mode any returned
node is a listed node different from the current one, every such node is a
possible outcome of the random choice, and None is returned when no
alternative node exists. -/
theorem get_next_node_c6 (st : ManagerState) (cache : CacheState) (now r : ℚ)
    (idx : ℕ) :
    (st.useCache = true → ∀ c, st.current = some c →
       ((getNextNode st cache now r idx).cache.nodes
           = markNodeFailureList cache.nodes c.url
        ∧ ∀ n, (getRandomNode (cacheMarkNodeFailure cache c.url).state now r).picked
              = some n →
            some n ≠ st.current →
            (getNextNode st cache now r idx).ret = some n
            ∧ (getNextNode st cache now r idx).mgr.current = some n))
    ∧ (st.useCache = true →
        ∀ n, (getNextNode st cache now r idx).ret = some n →
          some n ≠ st.current
          ∧ (getNextNode st cache now r idx).mgr.current = some n)
    ∧ (st.useCache = false →
        ((∀ n, (getNextNode st cache now r idx).ret = some n →
            n ∈ st.nodes ∧ some n ≠ st.current)
         ∧ (st.nodes.filter (fun x => decide (some x ≠ st.current)) = [] →
              (getNextNode st cache now r idx).ret = none)
         ∧ (∀ n ∈ st.nodes, some n ≠ st.current → 1 < st.nodes.length →
              ∃ j, (getNextNode st cache now r j).ret = some n))) := by
  refine ⟨?_, ?_, ?_⟩
  · intro hc c hcur
    have hnodes1 : ((getRandomNode (cacheMarkNodeFailure cache c.url).state now r).state).nodes
        = markNodeFailureList cache.nodes c.url := by
      rw [getRandomNode_state_nodes, cacheMarkNodeFailure_nodes]
    constructor
    · unfold getNextNode
      rw [if_pos hc]
      simp only [hcur]
      rcases hres : (getRandomNode (cacheMarkNodeFailure cache c.url).state now r).picked
        with _ | n
      · simp only [hres]
        rw [staticNext_cache]
        exact hnodes1
      · simp only [hres]
        by_cases hne : some n ≠ some c
        · rw [if_pos hne]
          exact hnodes1
        · rw [if_neg hne]
          rw [staticNext_cache]
          exact hnodes1
    · intro n hres hne
      rw [hcur] at hne
      constructor
      · unfold getNextNode
        rw [if_pos hc]
        simp only [hcur, hres]
        rw [if_pos hne]
      · unfold getNextNode
        rw [if_pos hc]
        simp only [hcur, hres]
        rw [if_pos hne]
  · intro hc n hret
    unfold getNextNode at hret ⊢
    rw [if_pos hc] at hret ⊢
    rcases hcur : st.current with _ | c
    · simp only [hcur] at hret ⊢
      rcases hres : (getRandomNode cache now r).picked with _ | m
      · simp only [hres] at hret ⊢
        refine ⟨?_, staticNext_ret_current _ _ _ _ hret⟩
        simp
      · simp only [hres] at hret ⊢
        rw [if_pos (show some m ≠ (none : Option MoneroNode) by simp)] at hret ⊢
        have h2 : some m = some n := hret
        obtain rfl := Option.some.inj h2
        exact ⟨by simp, rfl⟩
    · simp only [hcur] at hret ⊢
      rcases hres : (getRandomNode (cacheMarkNodeFailure cache c.url).state now r).picked
        with _ | m
      · simp only [hres] at hret ⊢
        refine ⟨?_, staticNext_ret_current _ _ _ _ hret⟩
        have hmem := (staticNext_ret_mem st _ idx n hret).2
        rw [hcur] at hmem
        exact hmem
      · simp only [hres] at hret ⊢
        by_cases hne : some m ≠ some c
        · rw [if_pos hne] at hret ⊢
          have h2 : some m = some n := hret
          obtain rfl := Option.some.inj h2
          exact ⟨hne, rfl⟩
        · rw [if_neg hne] at hret ⊢
          refine ⟨?_, staticNext_ret_current _ _ _ _ hret⟩
          have hmem := (staticNext_ret_mem st _ idx n hret).2
          rw [hcur] at hmem
          exact hmem
  · intro h
    refine ⟨?_, ?_, ?_⟩
    · intro n hret
      rw [getNextNode_static st cache now r idx h] at hret
      exact staticNext_ret_mem st cache idx n hret
    · intro hempav
      rw [getNextNode_static st cache now r idx h]
      exact staticNext_none st cache idx hempav
    · intro n hn hne hlen
      rcases staticNext_hits st cache n hn hne hlen with ⟨j, hj⟩
      exact ⟨j, by rw [getNextNode_static st cache now r j h]; exact hj⟩

/-- A second distinct node for concrete scenarios. -/
def nAlt : MoneroNode := ⟨"h", "uh", "", false, 1, 0, 0, 1⟩

theorem get_next_node_c6_witness :
    ∃ j, (getNextNode ⟨[nGood, nAlt], false, some nGood, 0⟩ sStale 0 0 j).ret
      = some nAlt :=
  ((get_next_node_c6 ⟨[nGood, nAlt], false, some nGood, 0⟩ sStale 0 0 0).2.2 rfl).2.2
    nAlt (by simp) (by simp [nGood, nAlt]) (by simp)

/-- Result of MoneroNodeManager.mark_node_failure: new manager state, new
cache state, and whether the circuit breaker fired. -/
structure MgrMarkOut where
  mgr : ManagerState
  cache : CacheState
  forced : Bool
deriving DecidableEq

/-- MoneroNodeManager.mark_node_failure (lines 588-600): delegate to the
cache in cache mode, increment the local failure counter, and when it exceeds
3 force an immediate cache refresh and reset the counter to 0. -/
def mgrMarkNodeFailure (st : ManagerState) (cache : CacheState) (url : String) :
    MgrMarkOut :=
  if st.failureCount + 1 > 3 then
    ⟨{ st with failureCount := 0 },
     (if st.useCache = true
      then (forceRefresh (cacheMarkNodeFailure cache url).state).state
      else cache), true⟩
  else
    ⟨{ st with failureCount := st.failureCount + 1 },
     (if st.useCache = true then (cacheMarkNodeFailure cache url).state else cache),
     false⟩

/-- k consecutive mark_node_failure calls on the same manager. -/
def mgrFailures (st : ManagerState) (cache : CacheState) (url : String) :
    ℕ → MgrMarkOut
  | 0 => ⟨st, cache, false⟩
  | k + 1 =>
    mgrMarkNodeFailure (mgrFailures st cache url k).mgr
      (mgrFailures st cache url k).cache url

lemma forceRefresh_flag (s : CacheState) :
    (forceRefresh s).state.refresh_in_progress = true := by
  unfold forceRefresh
  split
  · rename_i h
    exact h
  · rfl

lemma mgrMark_count (st : ManagerState) (cache : CacheState) (url : String) :
    (mgrMarkNodeFailure st cache url).mgr.failureCount
      = if st.failureCount + 1 > 3 then 0 else st.failureCount + 1 := by
  unfold mgrMarkNodeFailure
  split <;> rfl

lemma mgrMark_forced (st : ManagerState) (cache : CacheState) (url : String) :
    (mgrMarkNodeFailure st cache url).forced = true ↔ st.failureCount + 1 > 3 := by
  unfold mgrMarkNodeFailure
  split
  · rename_i h
    exact iff_of_true rfl h
  · rename_i h
    exact iff_of_false Bool.false_ne_true h

lemma mgrFailures_count (st : ManagerState) (cache : CacheState) (url : String)
    (h0 : st.failureCount = 0) :
    ∀ k, (mgrFailures st cache url k).mgr.failureCount = k % 4 := by
  intro k
  induction k with
  | zero => simpa [mgrFailures] using h0
  | succ k ih =>
    have hstep : mgrFailures st cache url (k + 1)
        = mgrMarkNodeFailure (mgrFailures st cache url k).mgr
            (mgrFailures st cache url k).cache url := rfl
    rw [hstep, mgrMark_count, ih]
    by_cases h : k % 4 + 1 > 3
    · rw [if_pos h]
      omega
    · rw [if_neg h]
      omega

/-- C7: starting from a zeroed counter, each mark_node_failure call
increments the counter modulo the circuit breaker: after k calls the counter
equals k mod 4, hence is always at most 3, and the forced refresh fires
exactly on every fourth consecutive failure; moreover, in cache mode, at the
firing call the counter resets to 0 and the cache in-flight flag is set. -/
theorem failure_counter_c7 (st : ManagerState) (cache : CacheState) (url : String)
    (h0 : st.failureCount = 0) :
    (∀ k, (mgrFailures st cache url k).mgr.failureCount = k % 4
      ∧ (mgrFailures st cache url k).mgr.failureCount ≤ 3
      ∧ (1 ≤ k → ((mgrFailures st cache url k).forced = true ↔ k % 4 = 0)))
    ∧ (∀ (st2 : ManagerState) (c2 : CacheState), st2.useCache = true →
        st2.failureCount = 3 →
        (mgrMarkNodeFailure st2 c2 url).forced = true
        ∧ (mgrMarkNodeFailure st2 c2 url).mgr.failureCount = 0
        ∧ (mgrMarkNodeFailure st2 c2 url).cache.refresh_in_progress = true) := by
  constructor
  · intro k
    have hcount := mgrFailures_count st cache url h0 k
    refine ⟨hcount, by omega, ?_⟩
    intro hk
    rcases Nat.exists_eq_add_of_le hk with ⟨j, rfl⟩
    have hstep : mgrFailures st cache url (1 + j)
        = mgrMarkNodeFailure (mgrFailures st cache url j).mgr
            (mgrFailures st cache url j).cache url := by
      rw [Nat.add_comm 1 j]
      rfl
    rw [hstep, mgrMark_forced, mgrFailures_count st cache url h0 j]
    omega
  · intro st2 c2 huse h3
    have hgt : st2.failureCount + 1 > 3 := by omega
    refine ⟨(mgrMark_forced st2 c2 url).mpr hgt, ?_, ?_⟩
    · rw [mgrMark_count, if_pos hgt]
    · unfold mgrMarkNodeFailure
      rw [if_pos hgt]
      simp only [huse, if_pos]
      exact forceRefresh_flag _

theorem failure_counter_c7_witness :
    (mgrFailures ⟨[nGood], true, some nGood, 0⟩ sStale "u" 4).mgr.failureCount = 4 % 4
    ∧ ((mgrFailures ⟨[nGood], true, some nGood, 0⟩ sStale "u" 4).forced = true
        ↔ 4 % 4 = 0) :=
  ⟨((failure_counter_c7 ⟨[nGood], true, some nGood, 0⟩ sStale "u" rfl).1 4).1,
   ((failure_counter_c7 ⟨[nGood], true, some nGood, 0⟩ sStale "u" rfl).1 4).2.2
     (by norm_num)⟩

/- MCPTransport.call (utils.py lines 729-852). Node HTTP behavior is an
oracle per url; the manager's random draws are oracle lists: nextDraws are
get_next_node results consumed by _try_next_node (line 713), currentDraws
are the names of the fresh get_current_node draws taken after each switch
(line 846). The active endpoint (self.config) is modelled by its node. -/

/-- The "error" object of a JSON-RPC error envelope (lines 795-798); each
field may be absent. -/
structure RpcErrorInfo where
  message : Option String
  code : Option Int
  data : Option String
deriving DecidableEq

/-- A parsed JSON response body: optional "error" object, optional "result". -/
structure JsonBody where
  errorInfo : Option RpcErrorInfo
  result : Option String
deriving DecidableEq

/-- One HTTP exchange: transport-level failure (timeout, connection error,
non-2xx, request exception; lines 816-842), or 2xx whose body may fail to
parse as JSON (ok none, line 786-791). -/
inductive HttpResp where
  | fail : HttpResp
  | ok : Option JsonBody → HttpResp
deriving DecidableEq

/-- Terminal outcome of one call invocation. -/
inductive CallResult where
  | restOk : JsonBody → CallResult
  | ok : Option String → CallResult
  | rpcError : String → Option Int → Option String → CallResult
  | invalidJson : CallResult
  | exhausted : CallResult
deriving DecidableEq

/-- Classification of the JSON-RPC POST at lines 778-814: transport failure
gives none (mark and maybe retry); a 2xx non-JSON body raises a transport
error that is not caught by the retry handlers (line 791); an "error" key
raises MoneroRPCError with the message defaulted to "Unknown RPC error"
(lines 794-801); otherwise the "result" value (defaulted) is returned. -/
def postOutcome (post : String → HttpResp) (u : String) : Option CallResult :=
  match post u with
  | HttpResp.fail => none
  | HttpResp.ok none => some CallResult.invalidJson
  | HttpResp.ok (some b) =>
    match b.errorInfo with
    | some e =>
        some (CallResult.rpcError (e.message.getD "Unknown RPC error") e.code e.data)
    | none => some (CallResult.ok b.result)

/-- One attempt (lines 762-814): for get_height a REST GET is tried first
and a successful JSON body is returned directly, unchecked (lines 763-776);
any REST failure falls through to the JSON-RPC POST. -/
def attemptOutcome (method : String) (rest post : String → HttpResp) (u : String) :
    Option CallResult :=
  if method = "get_height" then
    match rest u with
    | HttpResp.ok (some b) => some (CallResult.restOk b)
    | _ => postOutcome post u
  else postOutcome post u

/-- Trace of one call invocation: terminal result, urls attempted (POST or
REST targets, in order), names added to the tried set (most recent first),
and urls passed to manager.mark_node_failure. -/
structure CallTrace where
  result : CallResult
  attempted : List String
  tried : List String
  marked : List String
deriving DecidableEq

/-- The retry loop of MCPTransport.call (lines 754-852): add the current
name to the tried set, attempt the active endpoint; on a terminal outcome
stop; on transport failure mark the endpoint failed, and, when retrying, ask
the manager for a next node and redraw the current name (each failed attempt
consumes one (nextDraw, freshName) oracle pair), giving up with the terminal
exhausted error when the manager yields no node or the fresh name was already
tried. -/
def callLoop (method : String) (rest post : String → HttpResp) (retry : Bool) :
    MoneroNode → String → List String → List String → List String →
    List (Option MoneroNode × String) → CallTrace
  | config, curName, tried, attAcc, markAcc, [] =>
    match attemptOutcome method rest post config.url with
    | some res => ⟨res, attAcc ++ [config.url], curName :: tried, markAcc⟩
    | none =>
      ⟨CallResult.exhausted, attAcc ++ [config.url], curName :: tried,
       markAcc ++ [config.url]⟩
  | config, curName, tried, attAcc, markAcc, (none, _) :: _ =>
    match attemptOutcome method rest post config.url with
    | some res => ⟨res, attAcc ++ [config.url], curName :: tried, markAcc⟩
    | none =>
      ⟨CallResult.exhausted, attAcc ++ [config.url], curName :: tried,
       markAcc ++ [config.url]⟩
  | config, curName, tried, attAcc, markAcc, (some nxt, newName) :: draws =>
    match attemptOutcome method rest post config.url with
    | some res => ⟨res, attAcc ++ [config.url], curName :: tried, markAcc⟩
    | none =>
      if retry then
        if newName ∈ curName :: tried then
          ⟨CallResult.exhausted, attAcc ++ [config.url], curName :: tried,
           markAcc ++ [config.url]⟩
        else
          callLoop method rest post retry nxt newName (curName :: tried)
            (attAcc ++ [config.url]) (markAcc ++ [config.url]) draws
      else
        ⟨CallResult.exhausted, attAcc ++ [config.url], curName :: tried,
         markAcc ++ [config.url]⟩
termination_by structural config curName tried attAcc markAcc draws => draws

/-- A fresh invocation of call: empty tried set and accumulators, the first
current name drawn before the loop (line 756), the active endpoint left from
construction or the previous call. -/
def callLoopStart (method : String) (rest post : String → HttpResp) (retry : Bool)
    (config : MoneroNode) (firstName : String)
    (draws : List (Option MoneroNode × String)) : CallTrace :=
  callLoop method rest post retry config firstName [] [] [] draws

lemma postOutcome_not_exhausted (post : String → HttpResp) (u : String) :
    postOutcome post u ≠ some CallResult.exhausted := by
  unfold postOutcome
  split
  · simp
  · simp
  · split <;> simp

lemma attemptOutcome_not_exhausted (method : String) (rest post : String → HttpResp)
    (u : String) : attemptOutcome method rest post u ≠ some CallResult.exhausted := by
  unfold attemptOutcome
  split
  · split
    · simp
    · exact postOutcome_not_exhausted post u
  · exact postOutcome_not_exhausted post u

lemma callLoop_nil (method : String) (rest post : String → HttpResp) (retry : Bool)
    (config : MoneroNode) (curName : String) (tried attAcc markAcc : List String) :
    callLoop method rest post retry config curName tried attAcc markAcc []
      = match attemptOutcome method rest post config.url with
        | some res => ⟨res, attAcc ++ [config.url], curName :: tried, markAcc⟩
        | none =>
          ⟨CallResult.exhausted, attAcc ++ [config.url], curName :: tried,
           markAcc ++ [config.url]⟩ := rfl

lemma callLoop_noNext (method : String) (rest post : String → HttpResp) (retry : Bool)
    (config : MoneroNode) (curName : String) (tried attAcc markAcc : List String)
    (nm : String) (draws : List (Option MoneroNode × String)) :
    callLoop method rest post retry config curName tried attAcc markAcc
        ((none, nm) :: draws)
      = match attemptOutcome method rest post config.url with
        | some res => ⟨res, attAcc ++ [config.url], curName :: tried, markAcc⟩
        | none =>
          ⟨CallResult.exhausted, attAcc ++ [config.url], curName :: tried,
           markAcc ++ [config.url]⟩ := rfl

lemma callLoop_cons (method : String) (rest post : String → HttpResp) (retry : Bool)
    (config : MoneroNode) (curName : String) (tried attAcc markAcc : List String)
    (nxt : MoneroNode) (newName : String) (draws : List (Option MoneroNode × String)) :
    callLoop method rest post retry config curName tried attAcc markAcc
        ((some nxt, newName) :: draws)
      = match attemptOutcome method rest post config.url with
        | some res => ⟨res, attAcc ++ [config.url], curName :: tried, markAcc⟩
        | none =>
          if retry then
            if newName ∈ curName :: tried then
              ⟨CallResult.exhausted, attAcc ++ [config.url], curName :: tried,
               markAcc ++ [config.url]⟩
            else
              callLoop method rest post retry nxt newName (curName :: tried)
                (attAcc ++ [config.url]) (markAcc ++ [config.url]) draws
          else
            ⟨CallResult.exhausted, attAcc ++ [config.url], curName :: tried,
             markAcc ++ [config.url]⟩ := rfl

lemma callLoop_tried_nodup (draws : List (Option MoneroNode × String)) :
    ∀ (method : String) (rest post : String → HttpResp) (retry : Bool)
      (config : MoneroNode) (curName : String) (tried attAcc markAcc : List String),
      curName ∉ tried → tried.Nodup →
      (callLoop method rest post retry config curName tried attAcc markAcc
        draws).tried.Nodup := by
  induction draws with
  | nil =>
    intro method rest post retry config curName tried attAcc markAcc hnm hnd
    have hnodup : (curName :: tried).Nodup := List.nodup_cons.mpr ⟨hnm, hnd⟩
    rw [callLoop_nil]
    rcases hout : attemptOutcome method rest post config.url with _ | res <;>
      simp only [hout] <;> exact hnodup
  | cons hd draws ih =>
    intro method rest post retry config curName tried attAcc markAcc hnm hnd
    have hnodup : (curName :: tried).Nodup := List.nodup_cons.mpr ⟨hnm, hnd⟩
    rcases hd with ⟨nxtOpt, newName⟩
    rcases nxtOpt with _ | nxt
    · rw [callLoop_noNext]
      rcases hout : attemptOutcome method rest post config.url with _ | res <;>
        simp only [hout] <;> exact hnodup
    · rw [callLoop_cons]
      rcases hout : attemptOutcome method rest post config.url with _ | res
      · simp only [hout]
        by_cases hr : retry
        · rw [if_pos hr]
          by_cases hmem : newName ∈ curName :: tried
          · rw [if_pos hmem]
            exact hnodup
          · rw [if_neg hmem]
            exact ih method rest post retry nxt newName (curName :: tried)
              (attAcc ++ [config.url]) (markAcc ++ [config.url]) hmem hnodup
        · rw [if_neg hr]
          exact hnodup
      · simp only [hout]
        exact hnodup

lemma callLoop_exhausted_failed (draws : List (Option MoneroNode × String)) :
    ∀ (method : String) (rest post : String → HttpResp) (retry : Bool)
      (config : MoneroNode) (curName : String) (tried attAcc markAcc : List String),
      (∀ u ∈ attAcc, attemptOutcome method rest post u = none) →
      (callLoop method rest post retry config curName tried attAcc markAcc
          draws).result = CallResult.exhausted →
      ∀ u ∈ (callLoop method rest post retry config curName tried attAcc markAcc
          draws).attempted, attemptOutcome method rest post u = none := by
  induction draws with
  | nil =>
    intro method rest post retry config curName tried attAcc markAcc hacc hres
    rw [callLoop_nil] at hres ⊢
    rcases hout : attemptOutcome method rest post config.url with _ | res
    · simp only [hout] at hres ⊢
      intro u hu
      rcases List.mem_append.mp hu with hu | hu
      · exact hacc u hu
      · rw [List.mem_singleton] at hu
        subst hu
        exact hout
    · simp only [hout] at hres
      exact absurd (hres ▸ hout)
        (attemptOutcome_not_exhausted method rest post config.url)
  | cons hd draws ih =>
    intro method rest post retry config curName tried attAcc markAcc hacc hres
    rcases hd with ⟨nxtOpt, newName⟩
    rcases hout : attemptOutcome method rest post config.url with _ | res
    · have hstep : ∀ u ∈ attAcc ++ [config.url],
          attemptOutcome method rest post u = none := by
        intro u hu
        rcases List.mem_append.mp hu with hu | hu
        · exact hacc u hu
        · rw [List.mem_singleton] at hu
          subst hu
          exact hout
      rcases nxtOpt with _ | nxt
      · rw [callLoop_noNext]
        simp only [hout]
        intro u hu
        exact hstep u hu
      · rw [callLoop_cons] at hres ⊢
        simp only [hout] at hres ⊢
        by_cases hr : retry
        · rw [if_pos hr] at hres ⊢
          by_cases hmem : newName ∈ curName :: tried
          · rw [if_pos hmem]
            intro u hu
            exact hstep u hu
          · rw [if_neg hmem] at hres ⊢
            exact ih method rest post retry nxt newName (curName :: tried)
              (attAcc ++ [config.url]) (markAcc ++ [config.url]) hstep hres
        · rw [if_neg hr]
          intro u hu
          exact hstep u hu
    · rcases nxtOpt with _ | nxt
      · rw [callLoop_noNext] at hres
        simp only [hout] at hres
        exact absurd (hres ▸ hout)
          (attemptOutcome_not_exhausted method rest post config.url)
      · rw [callLoop_cons] at hres
        simp only [hout] at hres
        exact absurd (hres ▸ hout)
          (attemptOutcome_not_exhausted method rest post config.url)

lemma callLoop_terminal (method : String) (rest post : String → HttpResp)
    (retry : Bool) (config : MoneroNode) (curName : String)
    (tried attAcc markAcc : List String) (draws : List (Option MoneroNode × String))
    (res : CallResult)
    (hout : attemptOutcome method rest post config.url = some res) :
    callLoop method rest post retry config curName tried attAcc markAcc draws
      = ⟨res, attAcc ++ [config.url], curName :: tried, markAcc⟩ := by
  rcases draws with _ | ⟨⟨nxtOpt, newName⟩, draws⟩
  · rw [callLoop_nil]
    simp only [hout]
  · rcases nxtOpt with _ | nxt
    · rw [callLoop_noNext]
      simp only [hout]
    · rw [callLoop_cons]
      simp only [hout]

lemma attemptOutcome_rpcError (method : String) (rest post : String → HttpResp)
    (u : String) (e : RpcErrorInfo) (res : Option String)
    (hrest : method = "get_height" → ∀ b, rest u ≠ HttpResp.ok (some b))
    (hpost : post u = HttpResp.ok (some ⟨some e, res⟩)) :
    attemptOutcome method rest post u
      = some (CallResult.rpcError (e.message.getD "Unknown RPC error") e.code e.data) := by
  have hpo : postOutcome post u
      = some (CallResult.rpcError (e.message.getD "Unknown RPC error") e.code e.data) := by
    unfold postOutcome
    rw [hpost]
  unfold attemptOutcome
  by_cases hm : method = "get_height"
  · rw [if_pos hm]
    rcases hr : rest u with _ | b
    · exact hpo
    · rcases b with _ | bb
      · exact hpo
      · exact absurd hr (hrest hm bb)
  · rw [if_neg hm]
    exact hpo

/-- C1 (amended): whenever an attempt reaches the JSON-RPC POST (for
get_height this requires the REST GET not to return a JSON body) and the
POST yields a 2xx response whose body carries an "error" key, the call raises
MoneroRPCError with the envelope message (defaulted to "Unknown RPC error"),
code and data on that very attempt: the loop terminates there, no further
node is attempted, and mark_node_failure is not invoked for this attempt, so
no success_rate changes; for get_height, however, a successful REST GET body
is returned unchecked even when it contains an "error" key. -/
theorem call_rpc_error_immediate_c1 (method : String) (rest post : String → HttpResp)
    (retry : Bool) (config : MoneroNode) (curName : String)
    (tried attAcc markAcc : List String) (draws : List (Option MoneroNode × String))
    (e : RpcErrorInfo) (res : Option String)
    (hrest : method = "get_height" → ∀ b, rest config.url ≠ HttpResp.ok (some b))
    (hpost : post config.url = HttpResp.ok (some ⟨some e, res⟩)) :
    callLoop method rest post retry config curName tried attAcc markAcc draws
      = ⟨CallResult.rpcError (e.message.getD "Unknown RPC error") e.code e.data,
         attAcc ++ [config.url], curName :: tried, markAcc⟩ :=
  callLoop_terminal method rest post retry config curName tried attAcc markAcc draws
    _ (attemptOutcome_rpcError method rest post config.url e res hrest hpost)

theorem call_rpc_error_immediate_c1_witness :
    callLoop "get_info" (fun _ => HttpResp.fail)
        (fun _ => HttpResp.ok (some ⟨some ⟨some "denied", some (-1), none⟩, none⟩))
        true nGood "g" [] [] [] []
      = ⟨CallResult.rpcError "denied" (some (-1)) none, [nGood.url], ["g"], []⟩ :=
  call_rpc_error_immediate_c1 "get_info" (fun _ => HttpResp.fail)
    (fun _ => HttpResp.ok (some ⟨some ⟨some "denied", some (-1), none⟩, none⟩))
    true nGood "g" [] [] [] [] ⟨some "denied", some (-1), none⟩ none
    (fun hcontra => absurd hcontra (by decide)) rfl

/-- A 2xx JSON body that carries a JSON-RPC error envelope. -/
def bodyErr : JsonBody := ⟨some ⟨some "denied", some (-1), none⟩, none⟩

/-- C1 counterexample: for method get_height the REST GET path returns a 2xx
JSON body containing an "error" key directly to the caller (the body is
never checked), so the call does not raise MoneroRPCError on that attempt,
contradicting the claim as stated for every attempt. -/
theorem call_rpc_error_rest_c1_cx :
    (callLoopStart "get_height" (fun _ => HttpResp.ok (some bodyErr))
        (fun _ => HttpResp.fail) true nGood "g" []).result
      = CallResult.restOk bodyErr
    ∧ bodyErr.errorInfo.isSome = true
    ∧ (∀ m c d, (callLoopStart "get_height" (fun _ => HttpResp.ok (some bodyErr))
        (fun _ => HttpResp.fail) true nGood "g" []).result ≠ CallResult.rpcError m c d)
    ∧ (callLoopStart "get_height" (fun _ => HttpResp.ok (some bodyErr))
        (fun _ => HttpResp.fail) true nGood "g" []).marked = [] := by
  have hres : (callLoopStart "get_height" (fun _ => HttpResp.ok (some bodyErr))
      (fun _ => HttpResp.fail) true nGood "g" []).result
      = CallResult.restOk bodyErr := rfl
  refine ⟨hres, rfl, ?_, rfl⟩
  intro m c d
  rw [hres]
  intro hcon
  exact CallResult.noConfusion hcon

/-- C2 (amended): within one invocation the names placed in the tried set
never repeat (each loop iteration adds a freshly drawn current-node name and
proceeds only to names not yet in the set), and the terminal
failed-to-connect error is raised only if every attempt of the invocation
ended in a transport-level failure; but the error may be raised before every
distinct known node has been attempted, and the POSTed endpoint urls may
repeat, because the tried set tracks fresh get_current_node draws rather
than the actual POST targets. -/
theorem call_retry_distinct_c2 (method : String) (rest post : String → HttpResp)
    (retry : Bool) (config : MoneroNode) (firstName : String)
    (draws : List (Option MoneroNode × String)) :
    (callLoopStart method rest post retry config firstName draws).tried.Nodup
    ∧ ((callLoopStart method rest post retry config firstName draws).result
          = CallResult.exhausted →
        ∀ u ∈ (callLoopStart method rest post retry config firstName draws).attempted,
          attemptOutcome method rest post u = none) := by
  constructor
  · exact callLoop_tried_nodup draws method rest post retry config firstName [] [] []
      (List.not_mem_nil firstName) List.nodup_nil
  · intro hres
    exact callLoop_exhausted_failed draws method rest post retry config firstName
      [] [] [] (fun u hu => absurd hu (List.not_mem_nil u)) hres

theorem call_retry_distinct_c2_witness :
    (callLoopStart "get_info" (fun _ => HttpResp.fail) (fun _ => HttpResp.fail)
        true nGood "g" []).tried.Nodup
    ∧ ∀ u ∈ (callLoopStart "get_info" (fun _ => HttpResp.fail)
        (fun _ => HttpResp.fail) true nGood "g" []).attempted,
        attemptOutcome "get_info" (fun _ => HttpResp.fail) (fun _ => HttpResp.fail) u
          = none :=
  ⟨(call_retry_distinct_c2 "get_info" (fun _ => HttpResp.fail)
      (fun _ => HttpResp.fail) true nGood "g" []).1,
   (call_retry_distinct_c2 "get_info" (fun _ => HttpResp.fail)
      (fun _ => HttpResp.fail) true nGood "g" []).2 rfl⟩

/-- A third distinct node for the exhaustion scenario. -/
def nThird : MoneroNode := ⟨"t", "ut", "", false, 1, 0, 0, 1⟩

/-- Every node fails at the transport level. -/
def failHttp : String → HttpResp := fun _ => HttpResp.fail

/-- C2 counterexample. First scenario: with three distinct known nodes
(nGood, nAlt, nThird), the first attempt on nGood transport-fails, the
manager legitimately offers nAlt, but the fresh get_current_node draw
returns the already-tried name "g", so the call raises the terminal error
after one attempt, not after all three distinct nodes were attempted.
Second scenario: with the active endpoint nGood but the pre-loop current
draw being "h", the url of nGood is POSTed twice within one invocation, so a
node is attempted twice. -/
theorem call_retry_distinct_c2_cx :
    callLoopStart "get_info" failHttp failHttp true nGood "g" [(some nAlt, "g")]
      = ⟨CallResult.exhausted, [nGood.url], ["g"], [nGood.url]⟩
    ∧ [nGood, nAlt, nThird].length = 3
    ∧ (callLoopStart "get_info" failHttp failHttp true nGood "g"
        [(some nAlt, "g")]).attempted.length = 1
    ∧ nAlt ∈ [nGood, nAlt, nThird]
    ∧ nAlt ≠ nGood
    ∧ nGood.name = "g"
    ∧ nAlt.name = "h"
    ∧ callLoopStart "get_info" failHttp failHttp true nGood "h" [(some nGood, "g")]
      = ⟨CallResult.exhausted, [nGood.url, nGood.url], ["g", "h"],
         [nGood.url, nGood.url]⟩
    ∧ ¬ (callLoopStart "get_info" failHttp failHttp true nGood "h"
          [(some nGood, "g")]).attempted.Nodup := by
  refine ⟨by decide, rfl, by decide, by decide, by decide, rfl, rfl, by decide,
    by decide⟩

/- Persistence (utils.py lines 313-344): _save_to_cache pickles a dict
holding the record list and an epoch timestamp; _load_fallback unpickles it
and restores the node list when the value is a dict with a "nodes" key.
pickle is modelled as a value tree with an encoder and decoder per record. -/

/-- Pickle-style value tree stored in the snapshot file. -/
inductive PValue where
  | str : String → PValue
  | int : Int → PValue
  | rat : ℚ → PValue
  | bool : Bool → PValue
  | list : List PValue → PValue
  | dict : List (String × PValue) → PValue

/-- Serialization of one MoneroNode record. -/
def encodeNode (n : MoneroNode) : PValue :=
  PValue.dict [("name", PValue.str n.name), ("url", PValue.str n.url),
    ("description", PValue.str n.description), ("is_local", PValue.bool n.is_local),
    ("priority", PValue.int n.priority),
    ("response_time", PValue.rat n.response_time),
    ("last_tested", PValue.rat n.last_tested),
    ("success_rate", PValue.rat n.success_rate)]

/-- Deserialization of one MoneroNode record. -/
def decodeNode : PValue → Option MoneroNode
  | PValue.dict [("name", PValue.str a), ("url", PValue.str b),
      ("description", PValue.str c), ("is_local", PValue.bool d),
      ("priority", PValue.int p), ("response_time", PValue.rat f),
      ("last_tested", PValue.rat g), ("success_rate", PValue.rat h)] =>
    some ⟨a, b, c, d, p, f, g, h⟩
  | _ => none

/-- Dictionary lookup, modelling the "nodes" key access of _load_fallback. -/
def lookupP : List (String × PValue) → String → Option PValue
  | [], _ => none
  | (k, v) :: kvs, key => if k = key then some v else lookupP kvs key

/-- MoneroNodeCache._save_to_cache (lines 333-344): the serialized snapshot,
a dict of the encoded record list under "nodes" plus an epoch timestamp. -/
def saveToCache (nodes : List MoneroNode) (ts : ℚ) : PValue :=
  PValue.dict [("nodes", PValue.list (nodes.map encodeNode)),
    ("timestamp", PValue.rat ts)]

/-- Reconstruct the record list element by element, failing if any element
is not a valid record. -/
def decodeNodes : List PValue → Option (List MoneroNode)
  | [] => some []
  | x :: xs =>
    match decodeNode x, decodeNodes xs with
    | some n, some ns => some (n :: ns)
    | _, _ => none

/-- The cache-file part of MoneroNodeCache._load_fallback (lines 317-324):
accept a dict with a "nodes" key holding a list and restore the records. -/
def loadFallback (pv : PValue) : Option (List MoneroNode) :=
  match pv with
  | PValue.dict l =>
    match lookupP l "nodes" with
    | some (PValue.list xs) => decodeNodes xs
    | _ => none
  | _ => none

lemma decodeNode_encodeNode (n : MoneroNode) : decodeNode (encodeNode n) = some n := rfl

lemma mapM_decode (l : List MoneroNode) :
    decodeNodes (l.map encodeNode) = some l := by
  induction l with
  | nil => rfl
  | cons hd tl ih =>
    simp only [List.map_cons, decodeNodes, decodeNode_encodeNode, ih]

/-- C8: writing the node snapshot to disk and reloading it with no
intervening refresh restores a node set identical to the one saved, for any
record list and timestamp (round-trip). -/
theorem snapshot_roundtrip_c8 (nodes : List MoneroNode) (ts : ℚ) :
    loadFallback (saveToCache nodes ts) = some nodes :=
  mapM_decode nodes

/- Refresh concurrency (utils.py lines 175-207 and 595-600). A small
interleaving model: _force_refresh performs a read of the in-progress flag
and, separately, a write-and-spawn; callers holding the cache mutex
(get_random_node / get_all_nodes / cache.mark_node_failure) execute both as
one atomic step, while MoneroNodeManager.mark_node_failure calls
_force_refresh directly without the lock, so its check and set interleave.
_background_refresh always clears the flag in its finally block. -/

/-- Shared state: the in-progress flag, the number of refresh threads in
flight, and the unlocked trigger threads before and after their flag check. -/
structure RState where
  flag : Bool
  inFlight : ℕ
  uPre : ℕ
  uPassed : ℕ
deriving DecidableEq

/-- Schedulable events: the two halves of an unlocked _force_refresh, one
whole locked _force_refresh, and the completion of a background refresh
(whether discovery succeeded or failed). -/
inductive REvent where
  | ucheck : REvent
  | uset : REvent
  | locked : REvent
  | complete : Bool → REvent
deriving DecidableEq

/-- One atomic step; none when the event is not enabled. -/
def rstep (s : RState) : REvent → Option RState
  | REvent.ucheck =>
    if s.uPre = 0 then none
    else if s.flag then some { s with uPre := s.uPre - 1 }
    else some { s with uPre := s.uPre - 1, uPassed := s.uPassed + 1 }
  | REvent.uset =>
    if s.uPassed = 0 then none
    else some { s with uPassed := s.uPassed - 1, flag := true, inFlight := s.inFlight + 1 }
  | REvent.locked =>
    if s.flag then some s
    else some { s with flag := true, inFlight := s.inFlight + 1 }
  | REvent.complete _ =>
    if s.inFlight = 0 then none
    else some { s with inFlight := s.inFlight - 1, flag := false }

/-- Run a schedule of events. -/
def runR (s : RState) : List REvent → Option RState
  | [] => some s
  | e :: evs =>
    match rstep s e with
    | some s2 => runR s2 evs
    | none => none

/-- True for the events of triggers that hold the cache mutex, and for
refresh completions. -/
def lockedOnly : REvent → Bool
  | REvent.locked => true
  | REvent.complete _ => true
  | _ => false

/-- C9 (amended): when every refresh trigger runs under the cache mutex, at
most one discovery cycle is ever in flight (and the flag is clear only when
none is), and the completion step leaves the in-flight flag False regardless
of whether discovery succeeded or failed; the unlocked trigger path of
MoneroNodeManager.mark_node_failure is excluded, since it breaks the bound. -/
theorem single_flight_c9 (evs : List REvent) (s0 s1 : RState)
    (hev : ∀ e ∈ evs, lockedOnly e = true)
    (h0 : s0.inFlight ≤ 1 ∧ (s0.flag = false → s0.inFlight = 0))
    (hrun : runR s0 evs = some s1) :
    (s1.inFlight ≤ 1 ∧ (s1.flag = false → s1.inFlight = 0))
    ∧ ∀ (s s2 : RState) (b : Bool), rstep s (REvent.complete b) = some s2 →
        s2.flag = false := by
  constructor
  · induction evs generalizing s0 with
    | nil =>
      simp only [runR] at hrun
      obtain rfl := Option.some.inj hrun
      exact h0
    | cons e evs ih =>
      have hel : lockedOnly e = true := hev e (List.mem_cons_self e evs)
      simp only [runR] at hrun
      rcases hs : rstep s0 e with _ | s2
      · simp only [hs] at hrun
        exact Option.noConfusion hrun
      · simp only [hs] at hrun
        refine ih s2 (fun x hx => hev x (List.mem_cons_of_mem e hx)) ?_ hrun
        cases e with
        | ucheck => simp [lockedOnly] at hel
        | uset => simp [lockedOnly] at hel
        | locked =>
          simp only [rstep] at hs
          by_cases hf : s0.flag
          · rw [if_pos hf] at hs
            obtain rfl := Option.some.inj hs
            exact h0
          · rw [if_neg hf] at hs
            have hfalse : s0.flag = false := by
              revert hf
              cases s0.flag <;> simp
            have h00 : s0.inFlight = 0 := h0.2 hfalse
            obtain rfl := Option.some.inj hs
            constructor
            · show s0.inFlight + 1 ≤ 1
              omega
            · intro hcontra
              simp at hcontra
        | complete b =>
          simp only [rstep] at hs
          by_cases hz : s0.inFlight = 0
          · rw [if_pos hz] at hs
            exact Option.noConfusion hs
          · rw [if_neg hz] at hs
            obtain rfl := Option.some.inj hs
            have h01 := h0.1
            constructor
            · show s0.inFlight - 1 ≤ 1
              omega
            · intro _
              show s0.inFlight - 1 = 0
              omega
  · intro s s2 b hstep
    simp only [rstep] at hstep
    by_cases hz : s.inFlight = 0
    · rw [if_pos hz] at hstep
      exact Option.noConfusion hstep
    · rw [if_neg hz] at hstep
      have h2 := Option.some.inj hstep
      rw [← h2]

theorem single_flight_c9_witness :
    (((⟨false, 0, 0, 0⟩ : RState).inFlight ≤ 1
        ∧ ((⟨false, 0, 0, 0⟩ : RState).flag = false
            → (⟨false, 0, 0, 0⟩ : RState).inFlight = 0))
      ∧ ∀ (s s2 : RState) (b : Bool), rstep s (REvent.complete b) = some s2 →
          s2.flag = false) :=
  single_flight_c9 [REvent.locked, REvent.complete true] ⟨false, 0, 0, 0⟩
    ⟨false, 0, 0, 0⟩ (by decide) (by decide) (by decide)

/-- C9 counterexample: starting from an idle cache, two concurrent callers
of MoneroNodeManager.mark_node_failure both reach the unlocked
_force_refresh; both read the in-progress flag as False before either sets
it, and both spawn a background refresh: two discovery cycles are in flight
at once, so the check-then-set is not atomic for every refresh trigger. -/
theorem single_flight_c9_cx :
    runR ⟨false, 0, 2, 0⟩ [REvent.ucheck, REvent.ucheck, REvent.uset, REvent.uset]
      = some ⟨true, 2, 0, 0⟩
    ∧ (⟨true, 2, 0, 0⟩ : RState).inFlight = 2
    ∧ ¬ ((⟨true, 2, 0, 0⟩ : RState).inFlight ≤ 1) := by
  refine ⟨by decide, by decide, by decide⟩
